import Mathlib

/-!
Verification development for the ToG (Think-on-Graph) reasoning backend.

The definitions below are a shallow embedding of the Python sources:
  * `tog-neo4j/neo4j_connector.py`  (class `Neo4jConnector`)
  * `tog-neo4j/ywretriever.py`      (function `entity_linking`)
  * `tog-neo4j/tog_reasoning.py`    (class `ToGReasoning`)

External collaborators (the ollama chat client, the Neo4j driver, the FAISS
retriever) are modelled as behaviour functions carried in an environment
record; exceptions that the Python code can observe are modelled with
`Except String`.  Python `str` operations used by the code (`strip`,
`split(",")`, `lower`, substring test) are re-implemented structurally over
`List Char` so that every definition evaluates inside the kernel.
-/

namespace YWRag

/-! ### Python string primitives -/

/-- Splitting a character list at every comma; mirrors Python `str.split(",")`
(adjacent separators yield empty pieces, the empty string yields one piece). -/
def splitChars : List Char → List (List Char)
  | [] => [[]]
  | c :: cs =>
    if c = ',' then [] :: splitChars cs
    else
      match splitChars cs with
      | [] => [[c]]
      | g :: gs => (c :: g) :: gs

def isWS (c : Char) : Bool :=
  c = ' ' || c = '\t' || c = '\n' || c = '\r'

/-- Python `str.strip()` (ASCII whitespace, both ends). -/
def pyStrip (s : String) : String :=
  String.mk (((s.data.dropWhile isWS).reverse.dropWhile isWS).reverse)

/-- Python `str.lower()`. -/
def pyLower (s : String) : String :=
  String.mk (s.data.map Char.toLower)

def listPre : List Char → List Char → Bool
  | [], _ => true
  | _ :: _, [] => false
  | x :: xs, y :: ys => x = y && listPre xs ys

def hasSub (needle : List Char) : List Char → Bool
  | [] => needle.isEmpty
  | c :: cs => listPre needle (c :: cs) || hasSub needle cs

/-- Python `sub in s`. -/
def pyContains (s sub : String) : Bool :=
  hasSub sub.data s.data

/-- Python `sep.join(xs)`. -/
def joinSep (sep : String) : List String → String
  | [] => ""
  | [x] => x
  | x :: xs => x ++ sep ++ joinSep sep xs

/-- `[e.strip() for e in response.split(",") if e.strip()]`. -/
def parseCSV (response : String) : List String :=
  (((splitChars response.data).map (fun cs => pyStrip (String.mk cs))).filter
    (fun piece => piece ≠ ""))

/-- First-occurrence deduplication, mirrors Python `list(dict.fromkeys(xs))`. -/
def dedupAcc {α : Type} [DecidableEq α] (seen : List α) : List α → List α
  | [] => []
  | x :: xs => if x ∈ seen then dedupAcc seen xs else x :: dedupAcc (x :: seen) xs

def dedupList {α : Type} [DecidableEq α] (l : List α) : List α :=
  dedupAcc [] l

/-- Map with a running index, mirrors Python `enumerate(xs, i)`. -/
def mapIdxFrom {α β : Type} (i : Nat) (xs : List α) (f : Nat → α → β) : List β :=
  match xs with
  | [] => []
  | x :: rest => f i x :: mapIdxFrom (i + 1) rest f

/-- Python dict assignment `d[k] = v` for an insertion-ordered dict given as an
association list: replace in place if the key exists, append otherwise. -/
def dictInsert (d : List (String × List String)) (k : String) (v : List String) :
    List (String × List String) :=
  if d.any (fun kv => kv.1 = k) then
    d.map (fun kv => if kv.1 = k then (k, v) else kv)
  else d ++ [(k, v)]

instance {ε α : Type} [DecidableEq ε] [DecidableEq α] : DecidableEq (Except ε α) :=
  fun x y =>
    match x, y with
    | .ok a, .ok b =>
      if h : a = b then isTrue (h ▸ rfl) else isFalse (fun hc => h (Except.ok.inj hc))
    | .ok _, .error _ => isFalse (fun hc => Except.noConfusion hc)
    | .error _, .ok _ => isFalse (fun hc => Except.noConfusion hc)
    | .error e, .error f =>
      if h : e = f then isTrue (h ▸ rfl) else isFalse (fun hc => h (Except.error.inj hc))

/-! ### `Neo4jConnector.execute_query` (neo4j_connector.py, lines 40-59)

The Neo4j driver session is a black box: `sessionRun` is the outcome of
`session.run(...)` followed by `[record.data() for record in result]` — either
the record list or the exception message.  The `try/except` wrapper logs and
returns `[]` on any failure. -/

def execute_query {α : Type} (sessionRun : Except String (List α)) : List α :=
  match sessionRun with
  | .ok records => records
  | .error _ => []

/-! ### Graph-store semantics for `Neo4jConnector.get_entity_neighbors`
(neo4j_connector.py, lines 178-204)

The Cypher query is

    MATCH path = (n)-[r*1..{depth}]-(m)
    WHERE n.name = $entity_name
      AND n.grag_id = $grag_id
      AND m.grag_id = $grag_id
      AND all(rel in r WHERE rel.grag_id = $grag_id)
    RETURN DISTINCT n.name as source_entity, type(r[0]) as relation,
                    m.name as target_entity, ...

We model a property graph as node and edge lists.  A matched path is an
alternating node/edge sequence; the pattern is undirected and, as in Cypher,
never repeats a relationship within one path (edge records are assumed
distinct).  `DISTINCT` is modelled by first-occurrence deduplication; the
`LIMIT 100` clause and the driver's unspecified result order are not
modelled.  When `self.grag_id` is falsy (`None` or `""`),
`_get_params_with_grag_id` does not bind `$grag_id`, the query fails with a
missing-parameter error, and `execute_query` returns `[]`. -/

structure GNode where
  nid : Nat
  name : String
  grag : Option String
deriving DecidableEq

structure GEdge where
  src : Nat
  dst : Nat
  typ : String
  grag : Option String
deriving DecidableEq

structure Graph where
  nodes : List GNode
  edges : List GEdge
deriving DecidableEq

structure MPath where
  mnodes : List GNode
  medges : List GEdge
deriving DecidableEq

/-- Undirected incidence: `-[r]-` matches an edge in either direction. -/
def connects (e : GEdge) (a b : GNode) : Bool :=
  (e.src == a.nid && e.dst == b.nid) || (e.src == b.nid && e.dst == a.nid)

/-- Extend a partial match by one hop, without repeating a relationship. -/
def growPath (g : Graph) (p : MPath) : List MPath :=
  match p.mnodes.getLast? with
  | none => []
  | some last =>
    g.edges.flatMap (fun e =>
      if p.medges.contains e then []
      else (g.nodes.filter (fun m => connects e last m)).map
        (fun m => MPath.mk (p.mnodes ++ [m]) (p.medges ++ [e])))

/-- All pattern matches with exactly `k` relationships. -/
def pathsOfLen (g : Graph) : Nat → List MPath
  | 0 => g.nodes.map (fun n => MPath.mk [n] [])
  | k + 1 => (pathsOfLen g k).flatMap (growPath g)

/-- All pattern matches of `(n)-[r*1..d]-(m)`. -/
def allPathsUpTo (g : Graph) (d : Nat) : List MPath :=
  (List.range d).flatMap (fun k => pathsOfLen g (k + 1))

/-- The WHERE clause: start name and partition, end partition, and the
partition of every relationship on the path.  Intermediate nodes are not
constrained. -/
def pathMatches (gragId entityName : String) (p : MPath) : Bool :=
  match p.mnodes.head?, p.mnodes.getLast? with
  | some n, some m =>
    n.name == entityName && n.grag == some gragId && m.grag == some gragId &&
      p.medges.all (fun e => e.grag == some gragId)
  | _, _ => false

def matchedPaths (g : Graph) (gragId entityName : String) (d : Nat) : List MPath :=
  (allPathsUpTo g d).filter (pathMatches gragId entityName)

/-- One row of the RETURN clause (the label/property columns are omitted). -/
structure NRec where
  source_entity : String
  relation : String
  target_entity : String
deriving DecidableEq

def recordOf (p : MPath) : Option NRec :=
  match p.mnodes.head?, p.medges.head?, p.mnodes.getLast? with
  | some n, some e, some m => some (NRec.mk n.name e.typ m.name)
  | _, _, _ => none

def get_entity_neighbors (g : Graph) (gragId : Option String)
    (entityName : String) (depth : Nat) : List NRec :=
  match gragId with
  | none => []
  | some gid =>
    if gid = "" then []
    else dedupList ((matchedPaths g gid entityName depth).filterMap recordOf)

/-- The sub-graph that belongs to one partition: its nodes and its edges. -/
def restrictTo (g : Graph) (gid : String) : Graph :=
  Graph.mk (g.nodes.filter (fun n => n.grag == some gid))
    (g.edges.filter (fun e => e.grag == some gid))

/-! ### `entity_linking` (ywretriever.py, lines 66-94)

`retriever_obj.retrieve(ent)` is the FAISS `similarity_search_with_score`
call: it may raise (modelled by `.error`) or return a ranked list of
`(page_content, score)` pairs.  Scores are totally ordered; we use `Int`.
The source appends `doc.page_content` of the top hit whenever the search
returns anything; the `threshold` parameter is compared against the score
only to pick the status glyph of a `print` line and never affects the
returned list.  Entities whose search returns an empty list are skipped. -/

def entity_linking (retrieve : String → Except String (List (String × Int))) :
    List String → Int → Except String (List String)
  | [], _ => .ok []
  | ent :: rest, threshold =>
    match retrieve ent with
    | .error e => .error e
    | .ok search_res =>
      match entity_linking retrieve rest threshold with
      | .error e => .error e
      | .ok results =>
        match search_res with
        | [] => .ok results
        | (doc, _score) :: _ => .ok (doc :: results)

/-! ### `ToGReasoning` (tog_reasoning.py)

The engine's collaborators are gathered in `Env`:
  * `chat`      — `ollama.chat` followed by `response['message']['content']`,
                  indexed by the number of LLM calls made so far, so that a
                  behaviour may depend on the call position and the prompt;
                  `.error` covers both a raised exception and a malformed
                  response dict (both are caught by `_call_llm`);
  * `get_entity_neighbors` — `self.neo4j.get_entity_neighbors(entity, depth=1)`;
                  the connector never raises (its `execute_query` catches), so
                  this is a total function into record lists whose fields model
                  Python `dict.get` with `Option`;
  * `retrieve`  — `self.retriever.retrieve` used inside `entity_linking`
                  (may raise; caught in `_extract_topic_entities`);
  * `search_entities_exact`, `search_entities_fuzzy` — the connector lookups
                  used by `_fallback_entity_matching` (total, `entity_name`
                  column only);
  * `elapsed`   — the observed `time.time() - start_time` difference.
Constructor state (`self.beam_width`, `self.max_depth`, whether
`self.retriever` initialised, `self.entity_linking_threshold`) is
`ToGConfig`. -/

structure Neighbor where
  relation : Option String
  target_entity : Option String
deriving DecidableEq

structure Env where
  chat : Nat → String → Except String String
  get_entity_neighbors : String → List Neighbor
  retrieve : String → Except String (List (String × Int))
  search_entities_exact : String → List String
  search_entities_fuzzy : String → List String
  elapsed : Nat

structure ToGConfig where
  beam_width : Nat
  max_depth : Nat
  retriever_some : Bool
  entity_linking_threshold : Int
deriving DecidableEq

/-- One hop of a reasoning path (tog_reasoning.py builds these dicts at
lines 299 and 317-321). -/
structure Hop where
  source : Option String
  relation : Option String
  target : String
deriving DecidableEq

abbrev RPath := List Hop

/-! The prompt templates of `_load_prompts` (lines 49-93), already formatted
with their runtime values, exactly as Python `str.format` produces them. -/

def entity_extraction_prompt (question : String) : String :=
  "Given the question: \"" ++ question ++ "\"\n" ++
  "Please extract all key entities mentioned in this question.\n" ++
  "Return only the entity names, separated by commas.\n" ++
  "Entities:"

def relation_selection_prompt (question entities relations : String)
    (beamWidth : Nat) : String :=
  "Given the question: \"" ++ question ++ "\"\n" ++
  "Current entities: " ++ entities ++ "\n" ++
  "Available relations: " ++ relations ++ "\n\n" ++
  "Please select the top " ++ Nat.repr beamWidth ++
  " most relevant relations that help answer the question.\n" ++
  "Return only the relation names, separated by commas.\n" ++
  "Selected relations:"

def entity_selection_prompt (question relation entities : String)
    (beamWidth : Nat) : String :=
  "Given the question: \"" ++ question ++ "\"\n" ++
  "Current relation: " ++ relation ++ "\n" ++
  "Available entities: " ++ entities ++ "\n\n" ++
  "Please select the top " ++ Nat.repr beamWidth ++
  " most relevant entities that help answer the question.\n" ++
  "Return only the entity names, separated by commas.\n" ++
  "Selected entities:"

def reasoning_evaluation_prompt (question paths : String) : String :=
  "Given the question: \"" ++ question ++ "\"\n" ++
  "Retrieved knowledge paths:\n" ++ paths ++ "\n\n" ++
  "Can you answer the question with sufficient confidence based on these paths and your knowledge?\n" ++
  "Answer with only \"Yes\" or \"No\".\n" ++
  "Answer:"

def answer_generation_prompt (question paths : String) : String :=
  "Based on the question and retrieved knowledge paths, please provide a clear answer.\n\n" ++
  "            Requirements:\n" ++
  "            1. Organize the answer into numbered points (1. 2. 3. ...)\n" ++
  "            2. Each point should start on a new line\n" ++
  "            3. Provide a concise and structured response\n\n" ++
  "            Question: " ++ question ++ "\n" ++
  "            Knowledge paths:\n" ++
  "            " ++ paths ++ "\n\n" ++
  "            Answer:"

/-- `_call_llm` (lines 95-109): returns the stripped content on success and
`""` when the client raises (the temperature option does not enter the
model).  The call counter advances either way, counting issued LLM calls. -/
def call_llm (env : Env) (cnt : Nat) (prompt : String) : String × Nat :=
  match env.chat cnt prompt with
  | .ok content => (pyStrip content, cnt + 1)
  | .error _ => ("", cnt + 1)

/-- `_fallback_entity_matching` (lines 151-173): exact match, then fuzzy
match, else keep the raw entity; dedupe and cap at `self.beam_width`. -/
def fallback_entity_matching (env : Env) (bw : Nat) (raw_entities : List String) :
    List String :=
  let matched := raw_entities.map (fun entity =>
    match env.search_entities_exact entity with
    | m :: _ => m
    | [] =>
      match env.search_entities_fuzzy entity with
      | m :: _ => m
      | [] => entity)
  (dedupList matched).take bw

/-- `_extract_topic_entities` (lines 115-149): LLM extraction, then entity
linking when the retriever initialised (falling back on any linking
exception), else the lexical fallback. -/
def extract_topic_entities (env : Env) (rs : Bool) (th : Int) (bw : Nat)
    (cnt : Nat) (question : String) : List String × Nat :=
  let rc := call_llm env cnt (entity_extraction_prompt question)
  let raw_entities := parseCSV rc.1
  let matched :=
    if rs then
      match entity_linking env.retrieve raw_entities th with
      | .ok linked => (dedupList linked).take bw
      | .error _ => fallback_entity_matching env bw raw_entities
    else fallback_entity_matching env bw raw_entities
  (matched, rc.2)

/-- The relation-pruning step inlined at lines 204-216 of
`_explore_relations`; this is the spec's `select_relations`. -/
def select_relations (env : Env) (cnt : Nat) (question entity : String)
    (bw : Nat) (all_relations : List String) : List String × Nat :=
  if all_relations.length ≤ bw then (all_relations, cnt)
  else
    let rc := call_llm env cnt
      (relation_selection_prompt question entity (joinSep ", " all_relations) bw)
    ((parseCSV rc.1).take bw, rc.2)

/-- The entity-pruning step inlined at lines 252-264 of `_explore_entities`
(candidates shown to the LLM are capped at 20); this is the spec's
`select_entities`. -/
def select_entities (env : Env) (cnt : Nat) (question relation : String)
    (bw : Nat) (target_candidates : List String) : List String × Nat :=
  if target_candidates.length ≤ bw then (target_candidates, cnt)
  else
    let rc := call_llm env cnt
      (entity_selection_prompt question relation
        (joinSep ", " (target_candidates.take 20)) bw)
    ((parseCSV rc.1).take bw, rc.2)

/-- `_explore_relations` (lines 179-221).  Python's `list(set(...))` has an
unspecified iteration order; the model fixes first-occurrence order.
`n.get("relation")` is truthy only for a present, non-empty string. -/
def explore_relations (env : Env) (cnt : Nat) (entities : List String)
    (question : String) (bw : Nat) : List (String × List String) × Nat :=
  entities.foldl (fun acc entity =>
    let neighbors := env.get_entity_neighbors entity
    let all_relations := dedupList (neighbors.filterMap (fun n =>
      match n.relation with
      | some r => if r = "" then none else some r
      | none => none))
    if all_relations.isEmpty then (dictInsert acc.1 entity [], acc.2)
    else
      let sc := select_relations env acc.2 question entity bw all_relations
      (dictInsert acc.1 entity sc.1, sc.2)) ([], cnt)

structure ExpRes where
  source : String
  relation : String
  targets : List String
deriving DecidableEq

/-- `_explore_entities` (lines 223-274): for every `(entity, relation)` pair,
collect the targets reached through that relation, skip empty candidate
sets, dedupe, prune. -/
def explore_entities (env : Env) (cnt : Nat)
    (entity_relations : List (String × List String)) (question : String)
    (bw : Nat) : List ExpRes × Nat :=
  entity_relations.foldl (fun acc kv =>
    kv.2.foldl (fun acc2 relation =>
      let neighbors := env.get_entity_neighbors kv.1
      let target_candidates := neighbors.filterMap (fun n =>
        if n.relation = some relation then
          match n.target_entity with
          | some t => if t = "" then none else some t
          | none => none
        else none)
      if target_candidates.isEmpty then acc2
      else
        let cands := dedupList target_candidates
        let sc := select_entities env acc2.2 question relation bw cands
        (acc2.1 ++ [ExpRes.mk kv.1 relation sc.1], sc.2)) acc)
    (([] : List ExpRes), cnt)

/-- The path-extension loop of `_beam_search_iteration` (lines 308-322).
`path[-1]` on an empty path raises `IndexError`; he who iterates a beam
containing an empty path alongside a non-empty one gets the exception. -/
def extend_paths (exploration_results : List ExpRes) :
    List RPath → Except String (List RPath)
  | [] => .ok []
  | path :: rest =>
    match path.getLast? with
    | none => .error "list index out of range"
    | some lastHop =>
      match extend_paths exploration_results rest with
      | .error e => .error e
      | .ok tailList =>
        .ok ((exploration_results.foldl (fun acc2 res =>
          if res.source = lastHop.target then
            acc2 ++ res.targets.map (fun t =>
              path ++ [Hop.mk (some res.source) (some res.relation) t])
          else acc2) []) ++ tailList)

/-- `_beam_search_iteration` (lines 276-326): seed from topic entities when
every current path is empty, explore relations then entities, extend every
path at its tail, and keep the first `self.beam_width` new paths (or the
previous beam when nothing extended). -/
def beam_search_iteration (env : Env) (rs : Bool) (th : Int) (bw : Nat)
    (cnt : Nat) (current_paths : List RPath) (question : String) :
    Except String (List RPath × Nat) :=
  let tail_entities := current_paths.filterMap (fun p => p.getLast?.map (fun h => h.target))
  let state :=
    if tail_entities.isEmpty then
      let tc := extract_topic_entities env rs th bw cnt question
      (tc.1.map (fun e => [Hop.mk none none e]), tc.1, tc.2)
    else (current_paths, tail_entities, cnt)
  let er := explore_relations env state.2.2 state.2.1 question bw
  let ee := explore_entities env er.2 er.1 question bw
  match extend_paths ee.1 state.1 with
  | .error e => .error e
  | .ok new_paths =>
    .ok (if new_paths.isEmpty then state.1 else new_paths.take bw, ee.2)

/-- `_format_paths` (lines 332-342); `None` fields print as `"None"`. -/
def optStr : Option String → String
  | none => "None"
  | some s => s

def format_paths (paths : List RPath) : String :=
  let formatted := (mapIdxFrom 1 paths (fun i path =>
    let path_str := joinSep " -> " ((path.filter (fun step => step.relation.isSome)).map
      (fun step =>
        "(" ++ optStr step.source ++ ") --[" ++ optStr step.relation ++ "]--> (" ++
          step.target ++ ")"))
    (i, path_str))).filterMap (fun ip =>
      if ip.2 = "" then none else some ("Path " ++ Nat.repr ip.1 ++ ": " ++ ip.2))
  joinSep "\n" formatted

/-- `_evaluate_sufficiency` (lines 344-356): short-circuit to `False` on an
empty or all-empty path list, else one LLM call parsed by a case-insensitive
substring test for `"yes"`. -/
def evaluate_sufficiency (env : Env) (cnt : Nat) (question : String)
    (paths : List RPath) : Bool × Nat :=
  if paths.isEmpty || paths.all (fun p => p.isEmpty) then (false, cnt)
  else
    let rc := call_llm env cnt (reasoning_evaluation_prompt question (format_paths paths))
    (pyContains (pyLower rc.1) "yes", rc.2)

/-- `_generate_answer` (lines 358-367). -/
def generate_answer (env : Env) (cnt : Nat) (question : String)
    (paths : List RPath) : String × Nat :=
  call_llm env cnt (answer_generation_prompt question (format_paths paths))

/-- The `for depth in range(depth_limit)` loop of `reason` (lines 408-428),
by recursion on the remaining depth budget.  The dead local
`reasoning_history` (appended to but never read) is omitted. -/
def reason_loop (env : Env) (rs : Bool) (th : Int) (bw : Nat)
    (question : String) : Nat → Nat → List RPath → Except String (List RPath × Nat)
  | 0, cnt, current_paths => .ok (current_paths, cnt)
  | d + 1, cnt, current_paths =>
    match beam_search_iteration env rs th bw cnt current_paths question with
    | .error e => .error e
    | .ok pc =>
      if pc.1.isEmpty then .ok (pc.1, pc.2)
      else
        let sc := evaluate_sufficiency env pc.2 question pc.1
        if sc.1 then .ok (pc.1, sc.2)
        else reason_loop env rs th bw question d sc.2 pc.1

/-- The body of the `try:` block of `reason` (lines 397-446), producing
`(success, answer, llm_call_count)` or the uncaught exception. -/
def reason_body (env : Env) (rs : Bool) (th : Int) (bw : Nat)
    (question : String) (depth_limit : Nat) (_beam_width_local : Nat) :
    Except String (Bool × String × Nat) :=
  match reason_loop env rs th bw question depth_limit 0 [] with
  | .error e => .error e
  | .ok pc =>
    if pc.1.isEmpty then
      .ok (false, "无法从知识图谱中找到足够的信息来回答该问题。", pc.2)
    else
      let ac := generate_answer env pc.2 question pc.1
      .ok (true, ac.1, ac.2)

/-- The result dict of `reason` (`success`, `question`, `answer`,
`execution_time`, `error_message`). -/
structure RResult where
  success : Bool
  question : String
  answer : String
  execution_time : Nat
  error_message : Option String
deriving DecidableEq

/-- The `except Exception` handler of `reason` (lines 448-456) around the
outcome of the `try:` body. -/
def reason_catch (question : String) (elapsed : Nat) :
    Except String (Bool × String × Nat) → RResult
  | .ok out => RResult.mk out.1 question out.2.1 elapsed none
  | .error e =>
    RResult.mk false question ("推理过程出错: " ++ e) elapsed (some e)

/-- `reason` (lines 373-456).  `depth_limit` honours a caller-supplied
`max_depth`; the local `beam_width` from `max_width` is computed but only
logged in the source — the search below reads `self.beam_width` throughout. -/
def reason (env : Env) (cfg : ToGConfig) (question : String)
    (max_depth max_width : Option Nat) : RResult :=
  let depth_limit := max_depth.getD cfg.max_depth
  let beam_width := max_width.getD cfg.beam_width
  reason_catch question env.elapsed
    (reason_body env cfg.retriever_some cfg.entity_linking_threshold
      cfg.beam_width question depth_limit beam_width)

/-- Modelled from the spec: `reason` as §4.4 of the spec describes it, where
"Depth and beam width are caller-supplied configuration; engine must accept
and honor each call's own values", i.e. every beam truncation (and the
topic-entity cap) uses the call's `max_width`.  Used only to compare against
the source-faithful `reason`. -/
def reason_spec_width (env : Env) (cfg : ToGConfig) (question : String)
    (max_depth max_width : Option Nat) : RResult :=
  let depth_limit := max_depth.getD cfg.max_depth
  let beam_width := max_width.getD cfg.beam_width
  reason_catch question env.elapsed
    (reason_body env cfg.retriever_some cfg.entity_linking_threshold
      beam_width question depth_limit beam_width)

/-! ### Chain structure of reasoning paths

A beam path is well-chained when its first hop is a bare topic entity
(`source = None`, line 299) and each later hop starts at the previous hop's
target (lines 317-321). -/

def chainedFrom (prev : String) : RPath → Bool
  | [] => true
  | h :: rest => (h.source == some prev) && chainedFrom h.target rest

def well_chained : RPath → Bool
  | [] => true
  | h :: rest => (h.source == none) && chainedFrom h.target rest

/-! ### Concrete environments and graphs used by witnesses and
counterexamples -/

/-- A stub client whose every LLM response is `"yes"`, over an empty graph
store and an empty retriever index. -/
def env1 : Env :=
  Env.mk (fun _ _ => .ok "yes") (fun _ => []) (fun _ => .ok []) (fun _ => [])
    (fun _ => []) 0

def cfg1 : ToGConfig := ToGConfig.mk 2 1 false 15

/-- A stub client that echoes answer-generation prompts (so the produced
answer reveals the surviving beam) and otherwise extracts the two topic
entities `E1`, `E2`; the graph gives each one outgoing edge. -/
def envC7 : Env :=
  Env.mk
    (fun _ prompt =>
      .ok (if pyContains prompt "Based on the question" then prompt else "E1, E2"))
    (fun e =>
      if e = "E1" then [Neighbor.mk (some "r") (some "T")]
      else if e = "E2" then [Neighbor.mk (some "r") (some "U")] else [])
    (fun _ => .error "no index") (fun _ => []) (fun _ => []) 0

def cfgC7 : ToGConfig := ToGConfig.mk 1 10 false 15

/-- A stub client whose LLM calls always raise. -/
def envLLMFail : Env :=
  Env.mk (fun _ _ => .error "llm down") (fun _ => []) (fun _ => .error "no retriever")
    (fun _ => []) (fun _ => []) 0

/-- A retriever whose nearest hit for every mention is `("bar", 100)` — a
match far beyond any small threshold. -/
def retrieveC : String → Except String (List (String × Int)) :=
  fun _ => .ok [("bar", 100)]

/-- A retriever with one indexed name: mention `"a"` hits `("A1", 3)`;
every other mention returns no hit. -/
def retrieveW : String → Except String (List (String × Int)) :=
  fun e => .ok (if e = "a" then [("A1", 3)] else [])

/-- A two-partition graph: partition `A` owns nodes `x`, `z` and both edges,
partition `B` owns the middle node; the edges (which carry `grag_id = A`)
pass through `B`'s node. -/
def nA : GNode := GNode.mk 1 "x" (some "A")

def nB : GNode := GNode.mk 2 "mid" (some "B")

def nC : GNode := GNode.mk 3 "z" (some "A")

def eAB : GEdge := GEdge.mk 1 2 "r" (some "A")

def eBC : GEdge := GEdge.mk 2 3 "s" (some "A")

def gCross : Graph := Graph.mk [nA, nB, nC] [eAB, eBC]

/-! ## Helper lemmas -/

theorem mem_dedupAcc {α : Type} [DecidableEq α] (x : α) :
    ∀ (l seen : List α), x ∈ dedupAcc seen l ↔ x ∈ l ∧ x ∉ seen := by
  intro l
  induction l with
  | nil => intro seen; simp [dedupAcc]
  | cons a as ih =>
    intro seen
    by_cases ha : a ∈ seen
    · have hxa : x = a → x ∈ seen := fun h => h ▸ ha
      simp only [dedupAcc, if_pos ha, ih, List.mem_cons]
      tauto
    · have hxa : x = a → x ∉ seen := fun h => h ▸ ha
      simp only [dedupAcc, if_neg ha, ih, List.mem_cons]
      tauto

theorem mem_dedupList {α : Type} [DecidableEq α] (x : α) (l : List α) :
    x ∈ dedupList l ↔ x ∈ l := by
  simp [dedupList, mem_dedupAcc]

theorem call_llm_snd (env : Env) (cnt : Nat) (p : String) :
    (call_llm env cnt p).2 = cnt + 1 := by
  unfold call_llm
  cases env.chat cnt p <;> rfl

theorem fallback_entity_matching_len (env : Env) (bw : Nat) (raw : List String) :
    (fallback_entity_matching env bw raw).length ≤ bw := by
  simp only [fallback_entity_matching]
  exact (List.length_take ..).trans_le (Nat.min_le_left ..)

theorem extract_topic_entities_len (env : Env) (rs : Bool) (th : Int) (bw cnt : Nat)
    (q : String) : (extract_topic_entities env rs th bw cnt q).1.length ≤ bw := by
  unfold extract_topic_entities
  cases rs with
  | false => simpa using fallback_entity_matching_len env bw _
  | true =>
    cases h : entity_linking env.retrieve
        (parseCSV (call_llm env cnt (entity_extraction_prompt q)).1) th with
    | ok linked =>
      simp [h]
    | error e =>
      simp [h]
      exact fallback_entity_matching_len env bw _

theorem beam_iter_shape {env : Env} {rs : Bool} {th : Int} {bw cnt : Nat}
    {paths : List RPath} {q : String} {out : List RPath} {cnt' : Nat}
    (heq : beam_search_iteration env rs th bw cnt paths q = .ok (out, cnt')) :
    ∃ (base : List RPath) (ers : List ExpRes) (new_paths : List RPath),
      (base = paths ∨
        base = (extract_topic_entities env rs th bw cnt q).1.map
          (fun e => [Hop.mk none none e])) ∧
      extend_paths ers base = .ok new_paths ∧
      out = if new_paths.isEmpty then base else new_paths.take bw := by
  by_cases hc :
      (paths.filterMap (fun p => p.getLast?.map (fun h => h.target))).isEmpty = true
  · simp only [beam_search_iteration, hc, if_true] at heq
    cases hext : extend_paths
        (explore_entities env
          (explore_relations env (extract_topic_entities env rs th bw cnt q).2
            (extract_topic_entities env rs th bw cnt q).1 q bw).2
          (explore_relations env (extract_topic_entities env rs th bw cnt q).2
            (extract_topic_entities env rs th bw cnt q).1 q bw).1 q bw).1
        ((extract_topic_entities env rs th bw cnt q).1.map
          (fun e => [Hop.mk none none e])) with
      | error e => rw [hext] at heq; exact absurd heq (by simp)
      | ok new_paths =>
        rw [hext] at heq
        refine ⟨_, _, new_paths, Or.inr rfl, hext, ?_⟩
        have := Except.ok.inj heq
        exact (Prod.mk.injEq .. ▸ this).1.symm
  · simp only [beam_search_iteration, hc, Bool.false_eq_true, if_false] at heq
    cases hext : extend_paths
        (explore_entities env
          (explore_relations env cnt
            (paths.filterMap (fun p => p.getLast?.map (fun h => h.target))) q bw).2
          (explore_relations env cnt
            (paths.filterMap (fun p => p.getLast?.map (fun h => h.target))) q bw).1
          q bw).1 paths with
      | error e => rw [hext] at heq; exact absurd heq (by simp)
      | ok new_paths =>
        rw [hext] at heq
        refine ⟨_, _, new_paths, Or.inl rfl, hext, ?_⟩
        have := Except.ok.inj heq
        exact (Prod.mk.injEq .. ▸ this).1.symm

theorem extend_contrib_mem (path : RPath) (lastHop : Hop) (x : RPath) :
    ∀ (ers : List ExpRes) (acc : List RPath),
      (∀ y ∈ acc, ∃ r t, y = path ++ [Hop.mk (some lastHop.target) (some r) t]) →
      x ∈ ers.foldl (fun acc2 res =>
        if res.source = lastHop.target then
          acc2 ++ res.targets.map (fun t =>
            path ++ [Hop.mk (some res.source) (some res.relation) t])
        else acc2) acc →
      ∃ r t, x = path ++ [Hop.mk (some lastHop.target) (some r) t] := by
  intro ers
  induction ers with
  | nil => intro acc hacc hx; exact hacc x hx
  | cons e es ih =>
    intro acc hacc hx
    refine ih _ ?_ hx
    intro y hy
    simp only [] at hy
    by_cases hsrc : e.source = lastHop.target
    · rw [if_pos hsrc] at hy
      rcases List.mem_append.mp hy with hy | hy
      · exact hacc y hy
      · rcases List.mem_map.mp hy with ⟨t, _, rfl⟩
        exact ⟨e.relation, t, by rw [hsrc]⟩
    · rw [if_neg hsrc] at hy
      exact hacc y hy

theorem extend_paths_ok_mem {ers : List ExpRes} :
    ∀ {paths L : List RPath}, extend_paths ers paths = .ok L →
      ∀ x ∈ L, ∃ p ∈ paths, ∃ lastHop, p.getLast? = some lastHop ∧
        ∃ r t, x = p ++ [Hop.mk (some lastHop.target) (some r) t] := by
  intro paths
  induction paths with
  | nil =>
    intro L hL x hx
    simp only [extend_paths] at hL
    cases Except.ok.inj hL
    exact absurd hx (List.not_mem_nil x)
  | cons path rest ih =>
    intro L hL x hx
    simp only [extend_paths] at hL
    cases hlast : path.getLast? with
    | none => rw [hlast] at hL; exact absurd hL (by simp)
    | some lastHop =>
      rw [hlast] at hL
      cases hrec : extend_paths ers rest with
      | error e => rw [hrec] at hL; exact absurd hL (by simp)
      | ok tailList =>
        rw [hrec] at hL
        cases Except.ok.inj hL
        rcases List.mem_append.mp hx with hx | hx
        · have := extend_contrib_mem path lastHop x ers []
            (fun y hy => absurd hy (List.not_mem_nil y)) hx
          exact ⟨path, List.mem_cons_self .., lastHop, hlast, this⟩
        · rcases ih hrec x hx with ⟨p, hp, rest⟩
          exact ⟨p, List.mem_cons_of_mem _ hp, rest⟩

theorem getLast_cons_default (f : Hop → String) (a : Hop) (as : RPath) (prev : String) :
    (((a :: as).getLast?.map f).getD prev) = ((as.getLast?.map f).getD (f a)) := by
  cases as with
  | nil => rfl
  | cons b bs =>
    rw [List.getLast?_cons_cons]
    cases hg : (b :: bs).getLast? with
    | none => simp at hg
    | some y => rfl

theorem chainedFrom_snoc (h : Hop) :
    ∀ (p : RPath) (prev : String),
      chainedFrom prev (p ++ [h]) =
        (chainedFrom prev p &&
          h.source == some ((p.getLast?.map (fun x => x.target)).getD prev)) := by
  intro p
  induction p with
  | nil => intro prev; simp [chainedFrom]
  | cons a as ih =>
    intro prev
    show ((a.source == some prev) && chainedFrom a.target (as ++ [h])) = _
    rw [ih a.target, getLast_cons_default (fun x => x.target) a as prev]
    show _ = ((a.source == some prev) && chainedFrom a.target as && _)
    rw [Bool.and_assoc]

theorem well_chained_snoc (p : RPath) (lastHop : Hop) (h : Hop)
    (hlast : p.getLast? = some lastHop) (hwc : well_chained p = true)
    (hsrc : h.source = some lastHop.target) : well_chained (p ++ [h]) = true := by
  cases p with
  | nil => simp at hlast
  | cons a as =>
    show ((a.source == none) && chainedFrom a.target (as ++ [h])) = true
    have hwc' : ((a.source == none) && chainedFrom a.target as) = true := hwc
    rw [chainedFrom_snoc]
    have htail : ((as.getLast?.map (fun x => x.target)).getD a.target) = lastHop.target := by
      have := getLast_cons_default (fun x => x.target) a as ""
      rw [hlast] at this
      exact this.symm
    rw [htail, hsrc]
    simp only [Bool.and_eq_true] at hwc' ⊢
    exact ⟨hwc'.1, hwc'.2, by simp⟩

theorem reason_loop_inv (env : Env) (rs : Bool) (th : Int) (bw : Nat) (q : String)
    (P : List RPath → Prop)
    (hstep : ∀ cnt paths out cnt', P paths →
      beam_search_iteration env rs th bw cnt paths q = .ok (out, cnt') → P out) :
    ∀ (d cnt : Nat) (paths out : List RPath) (cnt' : Nat), P paths →
      reason_loop env rs th bw q d cnt paths = .ok (out, cnt') → P out := by
  intro d
  induction d with
  | zero =>
    intro cnt paths out cnt' hP heq
    simp only [reason_loop] at heq
    cases Except.ok.inj heq
    exact hP
  | succ d ih =>
    intro cnt paths out cnt' hP heq
    simp only [reason_loop] at heq
    split at heq
    · exact absurd heq (by simp)
    · rename_i pc hit
      have hPout : P pc.1 := hstep cnt paths pc.1 pc.2 hP hit
      by_cases hemp : pc.1.isEmpty = true
      · rw [if_pos hemp] at heq
        cases Except.ok.inj heq
        exact hPout
      · rw [if_neg hemp] at heq
        by_cases hsuf : (evaluate_sufficiency env pc.2 q pc.1).1 = true
        · rw [if_pos hsuf] at heq
          cases Except.ok.inj heq
          exact hPout
        · rw [if_neg hsuf] at heq
          exact ih _ _ _ _ hPout heq

theorem mem_pathsOfLen_head (g : Graph) :
    ∀ (k : Nat) (p : MPath), p ∈ pathsOfLen g k →
      ∃ n ∈ g.nodes, p.mnodes.head? = some n := by
  intro k
  induction k with
  | zero =>
    intro p hp
    rcases List.mem_map.mp hp with ⟨n, hn, rfl⟩
    exact ⟨n, hn, rfl⟩
  | succ k ih =>
    intro p hp
    simp only [pathsOfLen] at hp
    rcases List.mem_flatMap.mp hp with ⟨q, hq, hpq⟩
    rcases ih q hq with ⟨n, hn, hhead⟩
    unfold growPath at hpq
    cases hlast : q.mnodes.getLast? with
    | none => rw [hlast] at hpq; exact absurd hpq (List.not_mem_nil p)
    | some last =>
      rw [hlast] at hpq
      rcases List.mem_flatMap.mp hpq with ⟨e, _, hpe⟩
      by_cases hcont : q.medges.contains e = true
      · rw [if_pos hcont] at hpe; exact absurd hpe (List.not_mem_nil p)
      · rw [if_neg hcont] at hpe
        rcases List.mem_map.mp hpe with ⟨m, _, rfl⟩
        refine ⟨n, hn, ?_⟩
        cases hq' : q.mnodes with
        | nil => rw [hq'] at hhead; simp at hhead
        | cons a as =>
          rw [hq'] at hhead
          simpa using hhead

theorem mem_neighbors_one (g : Graph) (gid name : String) (hgid : ¬ gid = "")
    (r : NRec) :
    r ∈ get_entity_neighbors g (some gid) name 1 ↔
      ∃ n ∈ g.nodes, ∃ m ∈ g.nodes, ∃ e ∈ g.edges,
        connects e n m = true ∧ n.name = name ∧ n.grag = some gid ∧
        m.grag = some gid ∧ e.grag = some gid ∧
        r = NRec.mk n.name e.typ m.name := by
  simp only [get_entity_neighbors]
  rw [if_neg hgid, mem_dedupList, List.mem_filterMap]
  constructor
  · rintro ⟨p, hp, hrec⟩
    rw [matchedPaths, List.mem_filter] at hp
    obtain ⟨hmem, hmatch⟩ := hp
    rw [allPathsUpTo, show List.range 1 = [0] from rfl] at hmem
    simp only [List.flatMap_cons, List.flatMap_nil,
      List.append_nil, Nat.zero_add] at hmem
    simp only [pathsOfLen] at hmem
    rcases List.mem_flatMap.mp hmem with ⟨q, hq, hpq⟩
    rcases List.mem_map.mp hq with ⟨n, hn, rfl⟩
    simp only [growPath, List.getLast?_singleton] at hpq
    simp only [List.contains_nil, Bool.false_eq_true, if_false] at hpq
    rcases List.mem_flatMap.mp hpq with ⟨e, he, hpe⟩
    rcases List.mem_map.mp hpe with ⟨m, hm', rfl⟩
    rw [List.mem_filter] at hm'
    obtain ⟨hm, hconn⟩ := hm'
    simp only [pathMatches, List.nil_append, List.singleton_append,
      List.getLast?_cons_cons, List.getLast?_singleton, List.head?_cons,
      Bool.and_eq_true, beq_iff_eq, List.all_cons, List.all_nil,
      Bool.and_true] at hmatch
    simp only [recordOf, List.nil_append, List.singleton_append,
      List.head?_cons, List.getLast?_cons_cons, List.getLast?_singleton] at hrec
    exact ⟨n, hn, m, hm, e, he, hconn, hmatch.1.1.1, hmatch.1.1.2, hmatch.1.2,
      hmatch.2, (Option.some.inj hrec).symm⟩
  · rintro ⟨n, hn, m, hm, e, he, hconn, hname, hng, hmg, heg, rfl⟩
    refine ⟨MPath.mk [n, m] [e], ?_, ?_⟩
    · rw [matchedPaths, List.mem_filter]
      constructor
      · rw [allPathsUpTo, show List.range 1 = [0] from rfl]
        simp only [List.flatMap_cons, List.flatMap_nil,
          List.append_nil, Nat.zero_add]
        simp only [pathsOfLen]
        refine List.mem_flatMap.mpr ⟨MPath.mk [n] [],
          List.mem_map.mpr ⟨n, hn, rfl⟩, ?_⟩
        simp only [growPath, List.getLast?_singleton]
        refine List.mem_flatMap.mpr ⟨e, he, ?_⟩
        simp only [List.contains_nil, Bool.false_eq_true, if_false]
        exact List.mem_map.mpr ⟨m, List.mem_filter.mpr ⟨hm, hconn⟩, rfl⟩
      · simp [pathMatches, hname, hng, hmg, heg]
    · simp [recordOf]

theorem beam_step_length_le {env : Env} {rs : Bool} {th : Int} {bw cnt : Nat}
    {paths : List RPath} {q : String} {out : List RPath} {cnt' : Nat}
    (hlen : paths.length ≤ bw)
    (heq : beam_search_iteration env rs th bw cnt paths q = .ok (out, cnt')) :
    out.length ≤ bw := by
  rcases beam_iter_shape heq with ⟨base, ers, new_paths, hbase, _, hout⟩
  have hbaselen : base.length ≤ bw := by
    rcases hbase with rfl | rfl
    · exact hlen
    · rw [List.length_map]
      exact extract_topic_entities_len env rs th bw cnt q
  subst hout
  by_cases hemp : new_paths.isEmpty = true
  · rw [if_pos hemp]; exact hbaselen
  · rw [if_neg hemp]
    exact (List.length_take ..).trans_le (Nat.min_le_left ..)

theorem beam_step_chained {env : Env} {rs : Bool} {th : Int} {bw cnt : Nat}
    {paths : List RPath} {q : String} {out : List RPath} {cnt' : Nat}
    (hinv : ∀ p ∈ paths, p ≠ [] ∧ well_chained p = true)
    (heq : beam_search_iteration env rs th bw cnt paths q = .ok (out, cnt')) :
    ∀ p ∈ out, p ≠ [] ∧ well_chained p = true := by
  rcases beam_iter_shape heq with ⟨base, ers, new_paths, hbase, hext, hout⟩
  have hbaseinv : ∀ p ∈ base, p ≠ [] ∧ well_chained p = true := by
    rcases hbase with rfl | rfl
    · exact hinv
    · intro p hp
      rcases List.mem_map.mp hp with ⟨e, _, rfl⟩
      exact ⟨by simp, by simp [well_chained, chainedFrom]⟩
  have hnewinv : ∀ p ∈ new_paths, p ≠ [] ∧ well_chained p = true := by
    intro p hp
    rcases extend_paths_ok_mem hext p hp with ⟨p0, hp0, lastHop, hlast, r, t, rfl⟩
    rcases hbaseinv p0 hp0 with ⟨_, hwc⟩
    exact ⟨by simp, well_chained_snoc p0 lastHop _ hlast hwc rfl⟩
  subst hout
  by_cases hemp : new_paths.isEmpty = true
  · rw [if_pos hemp]; exact hbaseinv
  · rw [if_neg hemp]
    intro p hp
    exact hnewinv p (List.take_subset _ _ hp)

theorem reason_catch_question (q : String) (t : Nat)
    (b : Except String (Bool × String × Nat)) :
    (reason_catch q t b).question = q := by
  cases b <;> rfl

theorem reason_catch_time (q : String) (t : Nat)
    (b : Except String (Bool × String × Nat)) :
    (reason_catch q t b).execution_time = t := by
  cases b <;> rfl

/-! ## Claims -/

/-- C10: `Neo4jConnector.execute_query` never raises: for every behaviour of
the driver session — any record list or any raised exception — it returns a
list; on any query failure (connection error, missing parameter, malformed
query) that list is `[]`, so a graph-store outage surfaces to the engine as
an empty result set rather than an exception. -/
theorem execute_query_never_raises :
    ∀ (α : Type) (b : Except String (List α)),
      (∀ e, b = .error e → execute_query b = []) ∧
      (∀ l, b = .ok l → execute_query b = l) := by
  intro α b
  exact ⟨fun e he => by rw [he]; rfl, fun l hl => by rw [hl]; rfl⟩

/-- Witness for C10: a failed query yields `[]`, a successful one yields its
records. -/
theorem execute_query_never_raises_witness :
    execute_query (Except.error "Cypher query failed" : Except String (List Nat)) = [] ∧
    execute_query (Except.ok [1, 2] : Except String (List Nat)) = [1, 2] :=
  ⟨(execute_query_never_raises Nat (Except.error "Cypher query failed")).1
      "Cypher query failed" rfl,
   (execute_query_never_raises Nat (Except.ok [1, 2])).2 [1, 2] rfl⟩

/-- C5: for every candidate list `C` with `len(C) <= k`, the relation pruner
and the entity pruner each return exactly `C` unchanged and issue zero LLM
calls (the call counter does not advance). -/
theorem select_unchanged_when_small :
    ∀ (env : Env) (cnt : Nat) (q ent rel : String) (bw : Nat)
      (cands : List String),
      cands.length ≤ bw →
      select_relations env cnt q ent bw cands = (cands, cnt) ∧
      select_entities env cnt q rel bw cands = (cands, cnt) := by
  intro env cnt q ent rel bw cands h
  constructor
  · simp only [select_relations, if_pos h]
  · simp only [select_entities, if_pos h]

/-- Witness for C5: two candidates, beam width five — returned verbatim with
an unchanged call counter. -/
theorem select_unchanged_when_small_witness :
    select_relations env1 3 "q" "e" 5 ["part_of", "located_in"] =
      (["part_of", "located_in"], 3) ∧
    select_entities env1 3 "q" "r" 5 ["part_of", "located_in"] =
      (["part_of", "located_in"], 3) :=
  select_unchanged_when_small env1 3 "q" "e" "r" 5 ["part_of", "located_in"]
    (by decide)

/-- C6 counterexample: with more than `k` candidates and a failing LLM call,
`select_relations` returns the empty selection `[]` — not the first `k`
candidates `["a", "b"]` that the claim requires. -/
theorem select_fallback_counterexample :
    select_relations envLLMFail 0 "q" "e" 2 ["a", "b", "c"] = ([], 1) ∧
    ["a", "b", "c"].take 2 = ["a", "b"] ∧
    (([] : List String) ≠ ["a", "b"]) := by
  refine ⟨?_, by decide, by decide⟩
  decide

/-- C6 amended: for every candidate list with more than `k` elements, when
the pruning LLM call fails or returns an empty or unparseable response
(anything whose comma-split, stripped, non-empty pieces are none), the
relation pruner and the entity pruner return the empty selection — not the
first `k` candidates — and never raise (they are total, with the call
counter advanced by one). -/
theorem select_fallback_empty :
    ∀ (env : Env) (cnt : Nat) (q ent rel : String) (bw : Nat)
      (cands : List String),
      bw < cands.length →
      (∀ prompt, parseCSV (call_llm env cnt prompt).1 = []) →
      select_relations env cnt q ent bw cands = ([], cnt + 1) ∧
      select_entities env cnt q rel bw cands = ([], cnt + 1) := by
  intro env cnt q ent rel bw cands h hparse
  have hle : ¬ cands.length ≤ bw := by omega
  constructor
  · simp only [select_relations, if_neg hle, hparse, call_llm_snd,
      List.take_nil]
  · simp only [select_entities, if_neg hle, hparse, call_llm_snd,
      List.take_nil]

/-- Witness for C6's amended claim: an always-raising client makes both
pruners degrade to the empty selection, advancing the counter. -/
theorem select_fallback_empty_witness :
    select_relations envLLMFail 0 "q" "e" 2 ["a", "b", "c"] = ([], 1) ∧
    select_entities envLLMFail 0 "q" "r" 2 ["a", "b", "c"] = ([], 1) :=
  select_fallback_empty envLLMFail 0 "q" "e" "r" 2 ["a", "b", "c"]
    (by decide) (fun _ => rfl)

/-- C8: for every question, the sufficiency oracle applied to an empty path
list, or to a path list all of whose paths are empty, returns `false` and
performs zero LLM calls (the call counter does not advance). -/
theorem evaluate_sufficiency_short_circuit :
    ∀ (env : Env) (cnt : Nat) (q : String) (paths : List RPath),
      (paths = [] ∨ ∀ p ∈ paths, p = []) →
      evaluate_sufficiency env cnt q paths = (false, cnt) := by
  intro env cnt q paths h
  have hcond : (paths.isEmpty || paths.all (fun p => p.isEmpty)) = true := by
    rcases h with rfl | hall
    · rfl
    · have hall' : paths.all (fun p => p.isEmpty) = true := by
        rw [List.all_eq_true]
        exact fun p hp => by rw [hall p hp]; rfl
      rw [hall', Bool.or_true]
  simp only [evaluate_sufficiency, if_pos hcond]

/-- Witness for C8: the empty path list and an all-empty path list both
short-circuit to `false` without advancing the call counter. -/
theorem evaluate_sufficiency_short_circuit_witness :
    evaluate_sufficiency env1 4 "q" [] = (false, 4) ∧
    evaluate_sufficiency env1 4 "q" [[], []] = (false, 4) :=
  ⟨evaluate_sufficiency_short_circuit env1 4 "q" [] (Or.inl rfl),
   evaluate_sufficiency_short_circuit env1 4 "q" [[], []]
     (Or.inr (by decide))⟩

/-- C4 counterexample: a mention whose nearest hit has distance `100`,
against threshold `1`, is still replaced by the hit (`"bar"`), not returned
unchanged (`"foo"`), so linking does not gate on the distance threshold. -/
theorem entity_linking_threshold_counterexample :
    entity_linking retrieveC ["foo"] 1 = .ok ["bar"] ∧
    entity_linking retrieveC ["foo"] 1 ≠ .ok ["foo"] ∧
    ¬ ((100 : Int) ≤ 1) := by
  refine ⟨rfl, by decide, by decide⟩

/-- C4 amended: `entity_linking` ignores the threshold entirely — the
returned list is identical for any two thresholds (the score is compared to
the threshold only for a log line) — and, when every retrieval succeeds, it
returns the top hit's text for each mention that has one and silently drops
each mention whose search comes back empty (the raw mention is never kept).
-/
theorem entity_linking_characterization :
    (∀ (retrieve : String → Except String (List (String × Int)))
        (entities : List String) (t1 t2 : Int),
      entity_linking retrieve entities t1 = entity_linking retrieve entities t2) ∧
    (∀ (retrieve : String → Except String (List (String × Int)))
        (entities : List String) (t : Int),
      (∀ e ∈ entities, ∃ l, retrieve e = .ok l) →
      entity_linking retrieve entities t =
        .ok (entities.filterMap (fun e =>
          ((retrieve e).toOption.bind List.head?).map Prod.fst))) := by
  constructor
  · intro retrieve entities t1 t2
    induction entities with
    | nil => rfl
    | cons ent rest ih =>
      simp only [entity_linking, ih]
  · intro retrieve entities t h
    induction entities with
    | nil => rfl
    | cons ent rest ih =>
      obtain ⟨l, hl⟩ := h ent (List.mem_cons_self ..)
      have hrest := ih (fun e he => h e (List.mem_cons_of_mem _ he))
      cases l with
      | nil =>
        simp only [entity_linking, hl, hrest, List.filterMap_cons]
        rfl
      | cons d ds =>
        simp only [entity_linking, hl, hrest, List.filterMap_cons]
        rfl

/-- Witness for C4's amended claim: with one indexed mention, linking keeps
the hit for `"a"`, drops `"b"`, and the threshold value is irrelevant. -/
theorem entity_linking_characterization_witness :
    entity_linking retrieveW ["a", "b"] 15 =
      .ok (["a", "b"].filterMap (fun e =>
        ((retrieveW e).toOption.bind List.head?).map Prod.fst)) ∧
    entity_linking retrieveW ["a", "b"] 7 =
      entity_linking retrieveW ["a", "b"] 15 :=
  ⟨entity_linking_characterization.2 retrieveW ["a", "b"] 15
     (fun e _ => ⟨if e = "a" then [("A1", 3)] else [], rfl⟩),
   entity_linking_characterization.1 retrieveW ["a", "b"] 7 15⟩

/-- C3: for every beam of length at most the beam width, one beam-search
expansion step returns a beam whose length is again at most the beam width;
by the second conjunct the bound holds for the beam surviving the whole
exploration loop. -/
theorem beam_width_bound :
    (∀ (env : Env) (rs : Bool) (th : Int) (bw cnt : Nat) (paths : List RPath)
        (q : String) (out : List RPath) (cnt' : Nat),
      paths.length ≤ bw →
      beam_search_iteration env rs th bw cnt paths q = .ok (out, cnt') →
      out.length ≤ bw) ∧
    (∀ (env : Env) (rs : Bool) (th : Int) (bw : Nat) (q : String)
        (d cnt : Nat) (paths out : List RPath) (cnt' : Nat),
      paths.length ≤ bw →
      reason_loop env rs th bw q d cnt paths = .ok (out, cnt') →
      out.length ≤ bw) := by
  constructor
  · intro env rs th bw cnt paths q out cnt' h1 h2
    exact beam_step_length_le h1 h2
  · intro env rs th bw q d cnt paths out cnt' h1 h2
    exact reason_loop_inv env rs th bw q (fun l => l.length ≤ bw)
      (fun _ _ _ _ hP heq => beam_step_length_le hP heq) d cnt paths out cnt' h1 h2

/-- Witness for C3: a concrete expansion from the empty beam, and a concrete
one-deep loop run, both land within beam width 2. -/
theorem beam_width_bound_witness :
    ([[Hop.mk none none "yes"]] : List RPath).length ≤ 2 ∧
    ([[Hop.mk none none "yes"]] : List RPath).length ≤ 2 :=
  ⟨beam_width_bound.1 env1 false 15 2 0 [] "q" [[Hop.mk none none "yes"]] 1
     (by decide) (by decide),
   beam_width_bound.2 env1 false 15 2 "q" 1 0 [] [[Hop.mk none none "yes"]] 2
     (by decide) (by decide)⟩

/-- C9: every reasoning path in the beam is well-chained — its first hop has
`source = None` and each hop starts at the previous hop's target — and each
expansion step preserves this (the appended hop's source equals the previous
tail); the second conjunct propagates the invariant over the whole loop. -/
theorem beam_paths_well_chained :
    (∀ (env : Env) (rs : Bool) (th : Int) (bw cnt : Nat) (paths : List RPath)
        (q : String) (out : List RPath) (cnt' : Nat),
      (∀ p ∈ paths, p ≠ [] ∧ well_chained p = true) →
      beam_search_iteration env rs th bw cnt paths q = .ok (out, cnt') →
      ∀ p ∈ out, p ≠ [] ∧ well_chained p = true) ∧
    (∀ (env : Env) (rs : Bool) (th : Int) (bw : Nat) (q : String)
        (d cnt : Nat) (paths out : List RPath) (cnt' : Nat),
      (∀ p ∈ paths, p ≠ [] ∧ well_chained p = true) →
      reason_loop env rs th bw q d cnt paths = .ok (out, cnt') →
      ∀ p ∈ out, p ≠ [] ∧ well_chained p = true) := by
  constructor
  · intro env rs th bw cnt paths q out cnt' h1 h2
    exact beam_step_chained h1 h2
  · intro env rs th bw q d cnt paths out cnt' h1 h2
    exact reason_loop_inv env rs th bw q
      (fun l => ∀ p ∈ l, p ≠ [] ∧ well_chained p = true)
      (fun _ _ _ _ hP heq => beam_step_chained hP heq) d cnt paths out cnt' h1 h2

/-- Witness for C9: expanding a seed path over a one-edge graph produces the
two-hop path `None→E1→T`, which is non-empty and well-chained. -/
theorem beam_paths_well_chained_witness :
    ([Hop.mk none none "E1", Hop.mk (some "E1") (some "r") "T"] : RPath) ≠ [] ∧
    well_chained [Hop.mk none none "E1", Hop.mk (some "E1") (some "r") "T"] = true :=
  beam_paths_well_chained.1 envC7 false 15 1 0 [[Hop.mk none none "E1"]] "q"
    [[Hop.mk none none "E1", Hop.mk (some "E1") (some "r") "T"]] 0
    (by decide) (by decide)
    [Hop.mk none none "E1", Hop.mk (some "E1") (some "r") "T"] (by decide)

/-- C2 counterexample: at depth 2 the query on partition `A` returns the
record `x --r--> z` whose only matching traversal runs through `nB`, a node
of partition `B` — so the traversal is not scoped to the queried partition
on every node, and the result is reachable only through another partition's
content. -/
theorem get_entity_neighbors_cross_partition_counterexample :
    MPath.mk [nA, nB, nC] [eAB, eBC] ∈ matchedPaths gCross "A" "x" 2 ∧
    nB ∈ (MPath.mk [nA, nB, nC] [eAB, eBC]).mnodes ∧
    nB.grag = some "B" ∧ (some "B" : Option String) ≠ some "A" ∧
    get_entity_neighbors gCross (some "A") "x" 2 = [NRec.mk "x" "r" "z"] := by
  decide

/-- C2 amended: the query is scoped to the partition on the start node, the
end node and every relationship traversed — but not on intermediate nodes of
multi-hop traversals.  Consequences proved here: (1) querying a partition
for an entity name carried by none of that partition's nodes returns the
empty result, at every depth; (2) every matched path starts and ends at
nodes of the queried partition and uses only that partition's relationships;
(3) at depth 1 — the only depth `ToGReasoning` ever requests — the result is
exactly the result over the partition's own sub-graph, hence independent of
every other partition's contents. -/
theorem get_entity_neighbors_partition_scoping :
    (∀ (g : Graph) (gid name : String) (d : Nat),
      (∀ n ∈ g.nodes, n.name = name → n.grag ≠ some gid) →
      get_entity_neighbors g (some gid) name d = []) ∧
    (∀ (g : Graph) (gid name : String) (d : Nat) (p : MPath),
      p ∈ matchedPaths g gid name d →
      (∃ n, p.mnodes.head? = some n ∧ n.grag = some gid ∧ n.name = name) ∧
      (∃ m, p.mnodes.getLast? = some m ∧ m.grag = some gid) ∧
      (∀ e ∈ p.medges, e.grag = some gid)) ∧
    (∀ (g : Graph) (gid name : String) (r : NRec),
      r ∈ get_entity_neighbors g (some gid) name 1 ↔
      r ∈ get_entity_neighbors (restrictTo g gid) (some gid) name 1) := by
  refine ⟨?_, ?_, ?_⟩
  · intro g gid name d habs
    simp only [get_entity_neighbors]
    by_cases hemp : gid = ""
    · rw [if_pos hemp]
    · rw [if_neg hemp]
      have hmp : matchedPaths g gid name d = [] := by
        rw [matchedPaths, List.filter_eq_nil_iff]
        intro p hp hmatch
        rw [allPathsUpTo] at hp
        rcases List.mem_flatMap.mp hp with ⟨k, _, hpk⟩
        rcases mem_pathsOfLen_head g (k + 1) p hpk with ⟨n, hn, hhead⟩
        have hlast : ∃ m, p.mnodes.getLast? = some m := by
          cases hl : p.mnodes.getLast? with
          | none =>
            rw [List.getLast?_eq_none_iff] at hl
            rw [hl] at hhead
            simp at hhead
          | some m => exact ⟨m, rfl⟩
        rcases hlast with ⟨m, hm⟩
        simp only [pathMatches, hhead, hm, Bool.and_eq_true, beq_iff_eq] at hmatch
        exact habs n hn hmatch.1.1.1 hmatch.1.1.2
      rw [hmp]
      rfl
  · intro g gid name d p hp
    rw [matchedPaths, List.mem_filter] at hp
    obtain ⟨_, hmatch⟩ := hp
    cases hh : p.mnodes.head? with
    | none => simp [pathMatches, hh] at hmatch
    | some n =>
      cases hl : p.mnodes.getLast? with
      | none => simp [pathMatches, hh, hl] at hmatch
      | some m =>
        simp only [pathMatches, hh, hl, Bool.and_eq_true, beq_iff_eq,
          List.all_eq_true] at hmatch
        refine ⟨⟨n, rfl, hmatch.1.1.2, hmatch.1.1.1⟩, ⟨m, rfl, hmatch.1.2⟩, ?_⟩
        intro e he
        simpa using hmatch.2 e he
  · intro g gid name r
    by_cases hemp : gid = ""
    · subst hemp
      simp [get_entity_neighbors]
    · rw [mem_neighbors_one g gid name hemp r,
        mem_neighbors_one (restrictTo g gid) gid name hemp r]
      constructor
      · rintro ⟨n, hn, m, hm, e, he, hconn, h1, h2, h3, h4, h5⟩
        refine ⟨n, ?_, m, ?_, e, ?_, hconn, h1, h2, h3, h4, h5⟩
        · simp [restrictTo, List.mem_filter, hn, h2]
        · simp [restrictTo, List.mem_filter, hm, h3]
        · simp [restrictTo, List.mem_filter, he, h4]
      · rintro ⟨n, hn, m, hm, e, he, hconn, h1, h2, h3, h4, h5⟩
        simp only [restrictTo, List.mem_filter, beq_iff_eq] at hn hm he
        exact ⟨n, hn.1, m, hm.1, e, he.1, hconn, h1, h2, h3, h4, h5⟩

/-- Witness for C2's amended claim on the concrete two-partition graph:
partition `A` has no node named `nope` so the query is empty; the edges of
the depth-2 matched path all carry partition `A`; and the depth-1 record set
coincides with that of the `A`-restricted sub-graph. -/
theorem get_entity_neighbors_partition_scoping_witness :
    get_entity_neighbors gCross (some "A") "nope" 2 = [] ∧
    nA.grag = some "A" ∧
    (NRec.mk "x" "r" "z" ∈ get_entity_neighbors gCross (some "A") "x" 1 ↔
      NRec.mk "x" "r" "z" ∈
        get_entity_neighbors (restrictTo gCross "A") (some "A") "x" 1) := by
  refine ⟨get_entity_neighbors_partition_scoping.1 gCross "A" "nope" 2 (by decide),
    ?_, get_entity_neighbors_partition_scoping.2.2 gCross "A" "x"
      (NRec.mk "x" "r" "z")⟩
  have h := (get_entity_neighbors_partition_scoping.2.1 gCross "A" "x" 2
    (MPath.mk [nA, nB, nC] [eAB, eBC]) (by decide)).1
  rcases h with ⟨n, hh, hg, _⟩
  have hn : nA = n := by simpa using hh
  rw [hn]
  exact hg

/-- C1: for every behaviour of the LLM client, the graph store and the
retriever (including raised exceptions and malformed responses), `reason` is
total and returns a `Result` whose `question` field echoes the input and
whose `execution_time` is the observed elapsed time; `reason` is exactly the
`except`-handler applied to the `try`-body, and that handler converts any
escaping exception into `Result` with `success = false`, the error message
in `answer`, and `error_message` set. -/
theorem reason_wellformed_result :
    ∀ (env : Env) (cfg : ToGConfig) (q : String) (md mw : Option Nat),
      (reason env cfg q md mw).question = q ∧
      (reason env cfg q md mw).execution_time = env.elapsed ∧
      reason env cfg q md mw = reason_catch q env.elapsed
        (reason_body env cfg.retriever_some cfg.entity_linking_threshold
          cfg.beam_width q (md.getD cfg.max_depth) (mw.getD cfg.beam_width)) ∧
      (∀ (b : Except String (Bool × String × Nat)) (q' : String) (t : Nat)
          (e : String), b = .error e →
        reason_catch q' t b =
          RResult.mk false q' ("推理过程出错: " ++ e) t (some e)) := by
  intro env cfg q md mw
  refine ⟨reason_catch_question q env.elapsed _, reason_catch_time q env.elapsed _,
    rfl, ?_⟩
  intro b q' t e hb
  subst hb
  rfl

/-- Witness for C1: a concrete call echoes its question, and a concrete
escaped exception `boom` is converted into a failed `Result` carrying it. -/
theorem reason_wellformed_result_witness :
    (reason env1 cfg1 "q" none none).question = "q" ∧
    reason_catch "q" 7 (Except.error "boom") =
      RResult.mk false "q" ("推理过程出错: " ++ "boom") 7 (some "boom") :=
  ⟨(reason_wellformed_result env1 cfg1 "q" none none).1,
   (reason_wellformed_result env1 cfg1 "q" none none).2.2.2
     (Except.error "boom") "q" 7 "boom" rfl⟩

set_option maxRecDepth 100000 in
/-- C7 counterexample: an engine constructed with `beam_width = 1`, called
as `reason(q, max_depth=1, max_width=2)`, truncates with the construction
default rather than the supplied `max_width`: its result differs from the
spec-described engine that honours the call's width (the echoed answer shows
one surviving path instead of two). -/
theorem reason_width_counterexample :
    reason envC7 cfgC7 "q" (some 1) (some 2) ≠
      reason_spec_width envC7 cfgC7 "q" (some 1) (some 2) := by
  decide

/-- C7 amended: `reason` honours the caller-supplied `max_depth` — with
`max_depth` given, the result is independent of the construction-time
default — but it ignores `max_width` entirely (the value is computed and
only logged): the result is identical for any two `max_width` arguments, and
every beam truncation keeps using the construction-time beam width. -/
theorem reason_depth_honored_width_ignored :
    (∀ (env : Env) (cfg : ToGConfig) (q : String) (d m : Nat) (mw : Option Nat),
      reason env (ToGConfig.mk cfg.beam_width m cfg.retriever_some
        cfg.entity_linking_threshold) q (some d) mw =
        reason env cfg q (some d) mw) ∧
    (∀ (env : Env) (cfg : ToGConfig) (q : String) (md : Option Nat)
        (mw mw' : Option Nat),
      reason env cfg q md mw = reason env cfg q md mw') := by
  constructor
  · intro env cfg q d m mw
    rfl
  · intro env cfg q md mw mw'
    rfl

end YWRag
